import Mathlib

/-!
Shallow embedding of the OpenAtlas entity/link model and the surrounding
view logic, translated from the repository sources:

* `openatlas/models/link.py` — `LinkMapper.insert`,
  `LinkMapper.get_linked_entities`, `LinkMapper.get_linked_entity`
* `openatlas/models/entity.py` — `Entity.search`, `Entity.set_dates`,
  `Entity.get_similar_named`
* `openatlas/util/util.py` — `is_authorized`
* `openatlas/views/place.py` — `save`

The SQL table `model.link` is modelled as a list of rows, `model.entity`
as a list of entity records.  Machine-level details that the claims do not
touch (timestamps as `numpy.datetime64`, psycopg2 cursors) are modelled as
`Option Int` dates and explicit state passing.
-/

/-- A row of the SQL table `model.link` (columns used by the code under
verification: id, property_code, domain_id, range_id, description). -/
structure LRow where
  id : Int
  property_code : String
  domain_id : Int
  range_id : Int
  description : Option String
deriving DecidableEq, Repr

/-- A row of `model.entity` as the old-era `Entity` objects expose it to
`LinkMapper.insert`: its id, name and CIDOC class code (`entity.class_.code`). -/
structure SEntity where
  id : Int
  name : String
  class_code : String
deriving DecidableEq, Repr

/-- The database state seen by the link mapper: the link table, the entity
table, and the next serial id the `RETURNING id` clause would produce. -/
structure DB where
  links : List LRow
  entities : List SEntity
  nextId : Int
deriving DecidableEq, Repr

/-- A CIDOC class object from `openatlas.classes` (code and name). -/
structure SClass where
  code : String
  name : String
deriving DecidableEq, Repr

/-- A CIDOC property object from `openatlas.properties`.  `find_object(
'domain_class_code', c)` / `find_object('range_class_code', c)` are
membership tests in these two code lists. -/
structure SProperty where
  code : String
  domainClassCodes : List String
  rangeClassCodes : List String
deriving DecidableEq, Repr

/-- Global environment of `LinkMapper.insert`: session debug flag,
`openatlas.classes` and `openatlas.properties` (total maps, as the running
application populates them for every code that occurs), the
`WHITELISTED_DOMAINS` config, and `EntityMapper.get_by_id`.  The old-era
`EntityMapper.get_by_id` body is not among the provided sources (only its
callers are), so it is kept as an abstract total map; the claims below never
depend on its behaviour. -/
structure Env where
  debugMode : Bool
  classes : String → SClass
  properties : String → SProperty
  whitelistedDomains : List String
  getById : Int → SEntity

/-- A Python argument to `LinkMapper.insert`'s `domain` parameter (and to the
elements of `range_`): `None` (or another falsy non-int such as the empty
string), an `Entity` object, or an int id. -/
inductive Arg where
  | anone : Arg
  | aent : SEntity → Arg
  | aid : Int → Arg
deriving DecidableEq, Repr

/-- Python truthiness of an `Arg` (`None`/`''` falsy, entities truthy,
ints truthy unless 0). -/
def Arg.truthy : Arg → Bool
  | .anone => false
  | .aent _ => true
  | .aid n => n != 0

/-- `domain.id if type(domain) is openatlas.Entity else int(domain)`. -/
def Arg.argId : Arg → Int
  | .anone => 0
  | .aent e => e.id
  | .aid n => n

/-- The `range_` argument of `LinkMapper.insert`: a single value or a list. -/
inductive RangeArg where
  | single : Arg → RangeArg
  | list : List Arg → RangeArg
deriving DecidableEq, Repr

/-- Python truthiness of the `range_` argument (empty list falsy). -/
def RangeArg.truthy : RangeArg → Bool
  | .single a => a.truthy
  | .list l => !l.isEmpty

/-- `range_ = range_ if isinstance(range_, list) else [range_]`. -/
def RangeArg.toList : RangeArg → List Arg
  | .single a => [a]
  | .list l => l

/-- Resolution step of the debug branch: an `Entity` argument is used as is,
an int id is looked up with `EntityMapper.get_by_id`. -/
def Env.resolve (env : Env) : Arg → SEntity
  | .aent e => e
  | .aid n => env.getById n
  | .anone => env.getById 0

/-- Result of `LinkMapper.insert`: the database after the call, the returned
id (`None` when nothing was inserted), and the flashed error messages. -/
structure InsertResult where
  db : DB
  result : Option Int
  flashes : List String
deriving DecidableEq, Repr

/-- The error text flashed by `LinkMapper.insert` when CIDOC validation
fails: `_('error link') + ': ' + domain_class.name + ' > ' + property_code
+ ' > ' + range_class.name` (with the gettext key as the literal text). -/
def errorLinkText (domain_class range_class : SClass) (property_code : String) : String :=
  "error link" ++ ": " ++ domain_class.name ++ " > " ++ property_code ++ " > " ++ range_class.name

/-- The `for range_param in range_` loop of `LinkMapper.insert`
(link.py lines 41-81).  The loop variable `dom` carries the function's
`domain` binding, which the debug branch reassigns to a resolved `Entity`
(the Python reassignment of `range_` inside the loop does not affect the
iterator, which was created from the original list, so it is not modelled).
`res` carries `result`, overwritten by each executed `RETURNING id`. -/
def insertLoop (env : Env) (property_code : String) (description : Option String) :
    List Arg → Arg → DB → Option Int → List String → InsertResult
  | [], _, db, res, fl => ⟨db, res, fl⟩
  | rp :: rest, dom, db, res, fl =>
    if rp.truthy = false then
      insertLoop env property_code description rest dom db res fl
    else
      let domain_id := dom.argId
      let range_id := rp.argId
      if env.debugMode then
        let dom' := env.resolve dom
        let rg' := env.resolve rp
        let domain_class := env.classes dom'.class_code
        let range_class := env.classes rg'.class_code
        let property := env.properties property_code
        let domain_error :=
          !(property.domainClassCodes.contains domain_class.code)
            && !(env.whitelistedDomains.contains domain_class.code)
        let range_error := !(property.rangeClassCodes.contains range_class.code)
        if domain_error || range_error then
          insertLoop env property_code description rest (.aent dom') db res
            (fl ++ [errorLinkText domain_class range_class property_code])
        else
          insertLoop env property_code description rest (.aent dom')
            { db with
                links := db.links ++ [⟨db.nextId, property_code, domain_id, range_id, description⟩],
                nextId := db.nextId + 1 }
            (some db.nextId) fl
      else
        insertLoop env property_code description rest dom
          { db with
              links := db.links ++ [⟨db.nextId, property_code, domain_id, range_id, description⟩],
              nextId := db.nextId + 1 }
          (some db.nextId) fl

namespace LinkMapper

/-- `LinkMapper.insert` (link.py lines 35-82): early return on falsy
`domain`/`range_`, otherwise the per-element loop. -/
def insert (env : Env) (db : DB) (domain : Arg) (property_code : String)
    (range_ : RangeArg) (description : Option String) : InsertResult :=
  if domain.truthy = false ∨ range_.truthy = false then ⟨db, none, []⟩
  else insertLoop env property_code description range_.toList domain db none []

end LinkMapper

namespace EntityMapper

/-- `EntityMapper.get_by_ids`: `SELECT ... WHERE e.id IN %(ids)s` — the
entity rows whose id is among `ids` (each table row once; the `ORDER BY
e.name` clause only permutes the result and is not modelled, the claims
being about membership). An empty id tuple would be a SQL error, hence the
guard in the caller; it is modelled as the empty result. -/
def get_by_ids (db : DB) (ids : List Int) : List SEntity :=
  if ids.isEmpty then [] else db.entities.filter (fun e => ids.contains e.id)

end EntityMapper

namespace LinkMapper

/-- `LinkMapper.get_linked_entities` (link.py lines 94-108): select
`range_id` of rows with the queried `domain_id` (swapped when `inverse`),
restricted to the given property codes, then fetch those entities. -/
def get_linked_entities (db : DB) (entity : SEntity) (codes : List String)
    (inverse : Bool) : List SEntity :=
  let ids :=
    if inverse then
      (db.links.filter (fun l => l.range_id == entity.id && codes.contains l.property_code)).map
        (fun l => l.domain_id)
    else
      (db.links.filter (fun l => l.domain_id == entity.id && codes.contains l.property_code)).map
        (fun l => l.range_id)
  EntityMapper.get_by_ids db ids

/-- `LinkMapper.get_linked_entity` (link.py lines 84-92).  The second
component records whether the "multiple linked entities found" error was
flashed. -/
def get_linked_entity (db : DB) (entity : SEntity) (code : String)
    (inverse : Bool) : Option SEntity × Bool :=
  let result := get_linked_entities db entity [code] inverse
  if 1 < result.length then (result.head?, true)
  else if !result.isEmpty then (result.head?, false)
  else (none, false)

end LinkMapper

/-! ## `Entity.search` (entity.py lines 445-540) -/

/-- A row fetched by the search SQL: entity id, system class and the four
date columns (dates modelled as `Option Int`, only their ordering matters). -/
structure SearchRow where
  id : Int
  system_class : String
  begin_from : Option Int
  begin_to : Option Int
  end_from : Option Int
  end_to : Option Int
deriving DecidableEq, Repr

/-- An entity as the search result loop uses it: its id and four dates. -/
structure SearchEntity where
  id : Int
  begin_from : Option Int
  begin_to : Option Int
  end_from : Option Int
  end_to : Option Int
deriving DecidableEq, Repr

/-- `Entity(row)` for a row of the search result. -/
def entityOfRow (r : SearchRow) : SearchEntity :=
  ⟨r.id, r.begin_from, r.begin_to, r.end_from, r.end_to⟩

/-- The entity a fetched row contributes (entity.py lines 496-507): alias
rows are resolved through `Link.get_linked_entity` (that new-era function's
body is not among the provided sources; it is kept as the abstract
parameter `resolveLinked`), rows of a class not among the searched classes
contribute nothing, other rows become `Entity(row)`. -/
def resolveRow (resolveLinked : Int → String → Bool → Option SearchEntity)
    (classes : List String) (r : SearchRow) : Option SearchEntity :=
  if r.system_class == "actor_appellation" then resolveLinked r.id "P131" true
  else if r.system_class == "appellation" then resolveLinked r.id "P1" true
  else if !(classes.contains r.system_class) then none
  else some (entityOfRow r)

/-- `dates = [entity.begin_from, entity.begin_to, entity.end_from,
entity.end_to]`. -/
def entityDates (e : SearchEntity) : List (Option Int) :=
  [e.begin_from, e.begin_to, e.end_from, e.end_to]

/-- `not entity.begin_from and not entity.begin_to and not entity.end_from
and not entity.end_to` (entity.py lines 514-515). -/
def hasNoDates (e : SearchEntity) : Bool :=
  e.begin_from.isNone && e.begin_to.isNone && e.end_from.isNone && e.end_to.isNone

/-- `begin_check_ok` (entity.py lines 522-528): true without a `from_date`
criterion, otherwise true iff some defined date is `>=` it. -/
def beginCheckOk (from_date : Option Int) (e : SearchEntity) : Bool :=
  match from_date with
  | none => true
  | some f => (entityDates e).any (fun d =>
      match d with
      | some x => f ≤ x
      | none => false)

/-- `end_check_ok` (entity.py lines 530-536). -/
def endCheckOk (to_date : Option Int) (e : SearchEntity) : Bool :=
  match to_date with
  | none => true
  | some t => (entityDates e).any (fun d =>
      match d with
      | some x => x ≤ t
      | none => false)

/-- The date acceptance decision the result loop makes for one resolved
entity (entity.py lines 509-539, the `continue`/`append` structure folded
into one boolean). -/
def rowDateOk (from_date to_date : Option Int) (include_dateless : Bool)
    (e : SearchEntity) : Bool :=
  if from_date.isNone && to_date.isNone then true
  else if hasNoDates e then include_dateless
  else beginCheckOk from_date e && endCheckOk to_date e

/-- The `entities` list built by the result loop (entity.py lines 494-539). -/
def searchCollect (resolveLinked : Int → String → Bool → Option SearchEntity)
    (classes : List String) (from_date to_date : Option Int)
    (include_dateless : Bool) : List SearchRow → List SearchEntity
  | [] => []
  | row :: rest =>
    match resolveRow resolveLinked classes row with
    | none => searchCollect resolveLinked classes from_date to_date include_dateless rest
    | some entity =>
      if rowDateOk from_date to_date include_dateless entity then
        entity :: searchCollect resolveLinked classes from_date to_date include_dateless rest
      else
        searchCollect resolveLinked classes from_date to_date include_dateless rest

/-- One step of building the Python dict `{d.id: d for d in entities}`:
a later entity with an already-present id replaces the stored value in
place, a new id is appended. -/
def upsert (acc : List (Int × SearchEntity)) (e : SearchEntity) :
    List (Int × SearchEntity) :=
  if acc.any (fun p => p.1 == e.id) then
    acc.map (fun p => if p.1 == e.id then (p.1, e) else p)
  else acc ++ [(e.id, e)]

/-- `{d.id: d for d in entities}` as an insertion-ordered association list. -/
def dictById (l : List SearchEntity) : List (Int × SearchEntity) :=
  l.foldl upsert []

/-- `Entity.search` (entity.py lines 445-540) over the fetched rows:
the empty-term early return, the result loop, and the final
`{d.id: d for d in entities}.values()` de-duplication.  The month/day
autocompletion (lines 467-492) only rewrites form display fields and does
not influence the returned collection, so it is not modelled. -/
def search (resolveLinked : Int → String → Bool → Option SearchEntity)
    (classes : List String) (term : String) (from_date to_date : Option Int)
    (include_dateless : Bool) (rows : List SearchRow) : List SearchEntity :=
  if term == "" then []
  else
    (dictById (searchCollect resolveLinked classes from_date to_date include_dateless rows)).map
      Prod.snd

/-! ## `Entity.set_dates` (entity.py lines 187-214) -/

/-- The date-related fields of a `DateForm`: a `hasDateFields` flag for the
`hasattr(form, 'begin_year_from')` guard, and the year/month/day/comment
field data (`None` for an empty field). -/
structure DateFormData where
  hasDateFields : Bool
  begin_year_from : Option Int
  begin_month_from : Option Int
  begin_day_from : Option Int
  begin_year_to : Option Int
  begin_month_to : Option Int
  begin_day_to : Option Int
  begin_comment : Option String
  end_year_from : Option Int
  end_month_from : Option Int
  end_day_from : Option Int
  end_year_to : Option Int
  end_month_to : Option Int
  end_day_to : Option Int
  end_comment : Option String
deriving DecidableEq, Repr

/-- The six date attributes of an entity that `set_dates` writes. -/
structure EntityDates where
  begin_from : Option Int
  begin_to : Option Int
  begin_comment : Option String
  end_from : Option Int
  end_to : Option Int
  end_comment : Option String
deriving DecidableEq, Repr

/-- Python truthiness of an integer form field (`None` and `0` falsy). -/
def intTruthy : Option Int → Bool
  | none => false
  | some n => n != 0

/-- `Entity.set_dates` (entity.py lines 187-214), parameterised over
`Date.form_to_datetime64` (models/date.py is not among the provided
sources; the claims only concern which fields are set from which form
values, so the conversion is kept abstract as `formToDate year month day
to_date`). -/
def set_dates (formToDate : Option Int → Option Int → Option Int → Bool → Option Int)
    (e : EntityDates) (form : DateFormData) : EntityDates :=
  if !form.hasDateFields then e
  else
    let e1 : EntityDates := ⟨none, none, none, none, none, none⟩
    let e2 :=
      if intTruthy form.begin_year_from then
        { e1 with
            begin_comment := form.begin_comment,
            begin_from := formToDate form.begin_year_from form.begin_month_from
              form.begin_day_from false,
            begin_to := formToDate form.begin_year_to form.begin_month_to
              form.begin_day_to true }
      else e1
    if intTruthy form.end_year_from then
      { e2 with
          end_comment := form.end_comment,
          end_from := formToDate form.end_year_from form.end_month_from
            form.end_day_from false,
          end_to := formToDate form.end_year_to form.end_month_to
            form.end_day_to true }
    else e2

/-! ## `is_authorized` (util.py lines 409-420) -/

/-- `is_authorized` (util.py lines 409-420): the unauthenticated (or
group-less) early return, then the chain of group-string comparisons. -/
def is_authorized (authenticated : Bool) (userGroup : String) (group : String) : Bool :=
  if !authenticated then false
  else if userGroup == "admin"
      || (userGroup == "manager"
            && ["manager", "editor", "contributor", "readonly"].contains group)
      || (userGroup == "editor" && ["editor", "contributor", "readonly"].contains group)
      || (userGroup == "contributor" && ["contributor", "readonly"].contains group)
      || (userGroup == "readonly" && group == "readonly")
  then true
  else false

/-- The user groups the authorization chain mentions, from highest to
lowest. -/
def tier : Fin 5 → String :=
  fun i => ["admin", "manager", "editor", "contributor", "readonly"].get i

/-- Rank of a tier, highest first (`admin` = 4, ..., `readonly` = 0). -/
def tierRank : Fin 5 → Nat :=
  fun i => 4 - i.val

/-! ## The place `save` view function (place.py lines 301-361) -/

/-- The database-writing calls the place `save` function makes, in source
order.  Each tag stands for the SQL the named call executes. -/
inductive WTag where
  | gisDelete       -- Gis.delete_by_entity(location)
  | insertObject    -- Entity.insert(...) for the object
  | insertLocation  -- Entity.insert('E53', ...)
  | linkP53         -- object_.link('P53', location)
  | updateObject    -- object_.update(form)
  | updateLocation  -- location.update(form)
  | geonamesUpdate  -- Geonames.update_geonames(form, object_)
  | linkReference   -- origin.link('P67', object_) for a reference origin
  | linkP46         -- origin.link('P46', object_)
  | linkP67         -- origin.link('P67', object_)
  | gisInsert       -- Gis.insert(location, form)
  | userLog         -- logger.log_user(object_.id, log_action)
deriving DecidableEq, Repr

/-- One statement of `save`'s `try` block: a database write, a pure step
(url building, flashing), or the `COMMIT`.  Any of them can raise. -/
inductive SaveEvent where
  | write : WTag → SaveEvent
  | pureStep : SaveEvent
  | commitStep : SaveEvent
deriving DecidableEq, Repr

/-- Shape of the `origin` argument, as far as the branch structure of
`save` distinguishes it (place.py lines 333-341). -/
inductive OriginKind where
  | reference   -- origin.view_name == 'reference'
  | placeLike   -- origin.system_type in ['place', 'feature', 'stratigraphic unit']
  | other
deriving DecidableEq, Repr

/-- The statements of `save`'s `try` block (place.py lines 308-350) in
execution order, per branch configuration: the update-vs-insert branch, the
geonames module flag, the origin branch, the `continue_` flag. -/
def saveEvents (updateMode geonames : Bool) (origin : Option OriginKind)
    (continueFlag : Bool) : List SaveEvent :=
  (if updateMode then [.write .gisDelete]
   else [.write .insertObject, .write .insertLocation, .write .linkP53])
  ++ [.write .updateObject, .write .updateLocation]
  ++ (if geonames then [.write .geonamesUpdate] else [])
  ++ [.pureStep]
  ++ (match origin with
      | none => []
      | some .reference => [.write .linkReference]
      | some .placeLike => [.write .linkP46]
      | some .other => [.write .linkP67])
  ++ [.write .gisInsert]
  ++ [.commitStep]
  ++ (if continueFlag then [.pureStep] else [])
  ++ [.write .userLog, .pureStep]

/-- A call on the database cursor. -/
inductive DbOp where
  | begin : DbOp
  | commit : DbOp
  | rollback : DbOp
  | write : WTag → DbOp
deriving DecidableEq, Repr

/-- Run the `try` block: execute events until `failAt` (the index of the
statement that raises, if any); on an exception both `except` handlers
execute `ROLLBACK` (place.py lines 351-361). -/
def runEvents : List SaveEvent → Option Nat → List DbOp
  | [], _ => []
  | _ :: _, some 0 => [.rollback]
  | e :: rest, some (n + 1) =>
    (match e with
     | .write t => [DbOp.write t]
     | .commitStep => [DbOp.commit]
     | .pureStep => []) ++ runEvents rest (some n)
  | e :: rest, none =>
    (match e with
     | .write t => [DbOp.write t]
     | .commitStep => [DbOp.commit]
     | .pureStep => []) ++ runEvents rest none

/-- The cursor-call trace of one `save` call: `BEGIN` (place.py line 306),
then the `try` block with an optional exception at index `failAt`. -/
def saveTrace (updateMode geonames : Bool) (origin : Option OriginKind)
    (continueFlag : Bool) (failAt : Option Nat) : List DbOp :=
  DbOp.begin :: runEvents (saveEvents updateMode geonames origin continueFlag) failAt

/-- The database state: committed writes, and the write buffer of the open
transaction, if one is open. -/
structure DbState where
  committed : List WTag
  pending : Option (List WTag)
deriving DecidableEq, Repr

/-- Transactional semantics of one cursor call: `BEGIN` opens a buffer,
writes go to the open buffer (or take effect immediately outside a
transaction), `COMMIT` applies the buffer, `ROLLBACK` discards it. -/
def applyOp (s : DbState) : DbOp → DbState
  | .begin => { s with pending := some [] }
  | .commit =>
    match s.pending with
    | some p => ⟨s.committed ++ p, none⟩
    | none => s
  | .rollback => { s with pending := none }
  | .write t =>
    match s.pending with
    | some p => { s with pending := some (p ++ [t]) }
    | none => { s with committed := s.committed ++ [t] }

/-- Execute a cursor-call trace against a database state. -/
def execOps (ops : List DbOp) (s : DbState) : DbState :=
  ops.foldl applyOp s

/-! ## `Entity.get_similar_named` (entity.py lines 379-397) -/

/-- The inner loop of `get_similar_named` for one sample: every other
entity whose name similarity reaches the threshold.  `simFn` stands for
`fuzz.ratio` (an off-the-shelf library, not part of the repository) and
`minSim` for `form.ratio.data`. -/
def similarMatches (simFn : String → String → Int) (minSim : Int)
    (entities : List SEntity) (s : SEntity) : List SEntity :=
  entities.filter (fun e => e.id != s.id && minSim ≤ simFn s.name e.name)

/-- The outer loop of `get_similar_named` (entity.py lines 386-396):
`added` is the `already_added` id set; a sample already in it is skipped;
otherwise its group is computed and, when non-empty, the sample's id and
the ids of its group members join the set. -/
def gsnAux (simFn : String → String → Int) (minSim : Int) (entities : List SEntity) :
    List SEntity → List Int → List (SEntity × List SEntity)
  | [], _ => []
  | s :: rest, added =>
    if added.contains s.id then gsnAux simFn minSim entities rest added
    else
      let g := similarMatches simFn minSim entities s
      if g.isEmpty then (s, g) :: gsnAux simFn minSim entities rest added
      else (s, g) :: gsnAux simFn minSim entities rest (added ++ s.id :: g.map (fun e => e.id))

/-- The `already_added` set after processing a list of samples. -/
def gsnAcc (simFn : String → String → Int) (minSim : Int) (entities : List SEntity) :
    List SEntity → List Int → List Int
  | [], added => added
  | s :: rest, added =>
    if added.contains s.id then gsnAcc simFn minSim entities rest added
    else
      let g := similarMatches simFn minSim entities s
      if g.isEmpty then gsnAcc simFn minSim entities rest added
      else gsnAcc simFn minSim entities rest (added ++ s.id :: g.map (fun e => e.id))

/-- `Entity.get_similar_named` (entity.py lines 379-397): run the outer
loop over the entities of the searched class and keep only the groups with
at least one similar entity (the final dict comprehension). -/
def get_similar_named (simFn : String → String → Int) (minSim : Int)
    (entities : List SEntity) : List (SEntity × List SEntity) :=
  (gsnAux simFn minSim entities entities []).filter (fun p => !p.2.isEmpty)

/-- The validation-failure condition (`domain_error or range_error`) the
debug branch of `LinkMapper.insert` computes for one entity pair
(link.py lines 56-64), named so theorems can refer to it. -/
def insertErrCond (env : Env) (d rg : SEntity) (p : String) : Bool :=
  (!((env.properties p).domainClassCodes.contains (env.classes d.class_code).code)
      && !(env.whitelistedDomains.contains (env.classes d.class_code).code))
    || !((env.properties p).rangeClassCodes.contains (env.classes rg.class_code).code)

/-! ## Concrete fixtures used by the witness theorems -/

/-- A concrete database: two `P1` links out of entity 10, three entities. -/
def dbW : DB :=
  ⟨[⟨1, "P1", 10, 11, none⟩, ⟨2, "P1", 10, 12, none⟩],
   [⟨10, "a", "E21"⟩, ⟨11, "b", "E21"⟩, ⟨12, "c", "E21"⟩], 3⟩

/-- The entity with id 10 of `dbW`. -/
def entW10 : SEntity := ⟨10, "a", "E21"⟩

/-- The entity with id 11 of `dbW`. -/
def entW11 : SEntity := ⟨11, "b", "E21"⟩

/-- A concrete environment with validation off. -/
def envW : Env :=
  ⟨false, fun c => ⟨c, "class " ++ c⟩, fun p => ⟨p, ["E21"], ["E21"]⟩, [],
   fun n => ⟨n, "", "E21"⟩⟩

/-- A concrete environment with validation on; property `P1` accepts only
domain class `E21` and range class `E21`. -/
def envWdbg : Env :=
  ⟨true, fun c => ⟨c, "class " ++ c⟩, fun p => ⟨p, ["E21"], ["E21"]⟩, [],
   fun n => ⟨n, "", "E21"⟩⟩

/-- A concrete date-conversion function for witnesses: keep the year. -/
def f2dW : Option Int → Option Int → Option Int → Bool → Option Int :=
  fun y _ _ _ => y

/-- Entity date fields holding junk values, to witness the reset. -/
def eW : EntityDates := ⟨some 1, some 2, some "x", some 3, some 4, some "y"⟩

/-- A concrete form: empty begin year, end year 5. -/
def formW : DateFormData :=
  ⟨true, none, none, none, none, none, none, some "bc",
   some 5, some 6, some 7, some 8, some 9, some 10, some "ec"⟩

/-- A concrete search row: a `place` row with `begin_from` 5. -/
def rowW : SearchRow := ⟨1, "place", some 5, none, none, none⟩

/-- The entity `Entity(rowW)` builds. -/
def entSW : SearchEntity := ⟨1, some 5, none, none, none⟩

/-- A concrete stand-in for `Link.get_linked_entity` that never resolves. -/
def resolveW : Int → String → Bool → Option SearchEntity := fun _ _ _ => none

/-- A concrete similarity function: 100 for equal names, 0 otherwise. -/
def simW7 : String → String → Int := fun a b => if a == b then 100 else 0

/-- Concrete entities for the similar-name grouping: two named `x`, one
named `y`. -/
def entsW7 : List SEntity := [⟨1, "x", "E21"⟩, ⟨2, "x", "E21"⟩, ⟨3, "y", "E21"⟩]

/-! # Theorems -/

/-- Helper: on the five group strings, `is_authorized` agrees with the rank
comparison `admin` = 4 > `manager` > `editor` > `contributor` > `readonly` = 0. -/
theorem auth_tier_rank : ∀ i j : Fin 5,
    is_authorized true (tier i) (tier j) = decide (tierRank j ≤ tierRank i) := by
  decide

/-- Helper: `tierRank` is injective. -/
theorem tierRank_injective : Function.Injective tierRank := by
  intro i j h
  have hi := i.isLt
  have hj := j.isLt
  unfold tierRank at h
  exact Fin.ext (by omega)

/-- Claim C5, counterexample: the authorization chain of `is_authorized`
cannot be presented as a four-tier hierarchy — there is no rank function
into four tiers that reproduces its decisions on the five group strings. -/
theorem c5_counterexample :
    ¬ ∃ r : Fin 5 → Fin 4, ∀ i j : Fin 5,
      is_authorized true (tier i) (tier j) = decide (r j ≤ r i) := by
  rintro ⟨r, hr⟩
  have hinj : Function.Injective r := by
    intro i j hij
    have h1 := (auth_tier_rank i j).symm.trans (hr i j)
    have h2 := (auth_tier_rank j i).symm.trans (hr j i)
    rw [decide_eq_decide] at h1 h2
    have hle1 : tierRank j ≤ tierRank i := h1.mpr (le_of_eq hij.symm)
    have hle2 : tierRank i ≤ tierRank j := h2.mpr (le_of_eq hij)
    exact tierRank_injective (le_antisymm hle2 hle1)
  have := Fintype.card_le_of_injective r hinj
  simp at this

/-- Claim C5 (amended): for every authenticated user, `is_authorized`
decides access purely by comparing the user's group string against a fixed
FIVE-tier hierarchy (admin > manager > editor > contributor > readonly),
each tier being authorized for itself and all lower tiers. -/
theorem c5_five_tier : ∀ i j : Fin 5,
    is_authorized true (tier i) (tier j) = decide (tierRank j ≤ tierRank i) := by
  decide

/-- Claim C9: `LinkMapper.get_linked_entity` never fails on ambiguity: with
more than one linked entity it returns the first one and flashes the error,
with exactly one it returns it without flashing, with none it returns
`None`. -/
theorem c9_linked_entity_first (db : DB) (entity : SEntity) (code : String) (inverse : Bool) :
    (2 ≤ (LinkMapper.get_linked_entities db entity [code] inverse).length →
      LinkMapper.get_linked_entity db entity code inverse =
        ((LinkMapper.get_linked_entities db entity [code] inverse).head?, true) ∧
      ((LinkMapper.get_linked_entities db entity [code] inverse).head?).isSome = true) ∧
    ((LinkMapper.get_linked_entities db entity [code] inverse).length = 1 →
      LinkMapper.get_linked_entity db entity code inverse =
        ((LinkMapper.get_linked_entities db entity [code] inverse).head?, false)) ∧
    (LinkMapper.get_linked_entities db entity [code] inverse = [] →
      LinkMapper.get_linked_entity db entity code inverse = (none, false)) := by
  refine ⟨?_, ?_, ?_⟩ <;> intro h
  · constructor
    · have h1 : 1 < (LinkMapper.get_linked_entities db entity [code] inverse).length := h
      simp only [LinkMapper.get_linked_entity]
      rw [if_pos h1]
    · cases hE : LinkMapper.get_linked_entities db entity [code] inverse with
      | nil => rw [hE] at h; simp at h
      | cons a t => rfl
  · have h1 : ¬ 1 < (LinkMapper.get_linked_entities db entity [code] inverse).length := by
      rw [h]; omega
    have h2 : ¬ (LinkMapper.get_linked_entities db entity [code] inverse).isEmpty = true := by
      rw [List.isEmpty_iff_length_eq_zero, h]; omega
    simp [LinkMapper.get_linked_entity, h1, h2]
  · simp [LinkMapper.get_linked_entity, h]

/-- Witness for C9 on `dbW`: entity 10 has two `P1`-linked entities, and
`get_linked_entity` returns the first with the ambiguity flag. -/
theorem c9_witness :
    2 ≤ (LinkMapper.get_linked_entities dbW entW10 ["P1"] false).length ∧
    (LinkMapper.get_linked_entity dbW entW10 "P1" false =
      ((LinkMapper.get_linked_entities dbW entW10 ["P1"] false).head?, true) ∧
    ((LinkMapper.get_linked_entities dbW entW10 ["P1"] false).head?).isSome = true) :=
  ⟨by decide, (c9_linked_entity_first dbW entW10 "P1" false).1 (by decide)⟩

/-- Helper: the insert loop behaves as if the falsy range elements had been
removed from the list. -/
theorem insertLoop_filter (env : Env) (p : String) (desc : Option String)
    (l : List Arg) : ∀ (dom : Arg) (db : DB) (res : Option Int) (fl : List String),
    insertLoop env p desc l dom db res fl =
      insertLoop env p desc (l.filter Arg.truthy) dom db res fl := by
  induction l with
  | nil => intro dom db res fl; rfl
  | cons a rest ih =>
    intro dom db res fl
    cases ha : a.truthy with
    | false =>
      rw [List.filter_cons_of_neg (by simp [ha])]
      simp only [insertLoop, ha]
      exact ih dom db res fl
    | true =>
      rw [List.filter_cons_of_pos (by simp [ha])]
      simp only [insertLoop, ha]
      split
      · exact ih _ _ _ _
      · split
        · split
          · exact ih _ _ _ _
          · exact ih _ _ _ _
        · exact ih _ _ _ _

/-- Claim C10: `LinkMapper.insert` returns `None` and inserts nothing when
its `domain` or its `range_` argument is falsy, and it skips the falsy
elements of a range list while inserting the remaining ones. -/
theorem c10_insert_falsy :
    (∀ (env : Env) (db : DB) (domain : Arg) (p : String) (range_ : RangeArg)
        (desc : Option String),
      domain.truthy = false ∨ range_.truthy = false →
      LinkMapper.insert env db domain p range_ desc = ⟨db, none, []⟩) ∧
    (∀ (env : Env) (db : DB) (domain : Arg) (p : String) (l : List Arg)
        (desc : Option String),
      LinkMapper.insert env db domain p (.list l) desc =
        LinkMapper.insert env db domain p (.list (l.filter Arg.truthy)) desc) := by
  constructor
  · intro env db domain p range_ desc h
    rw [LinkMapper.insert, if_pos h]
  · intro env db domain p l desc
    by_cases hd : domain.truthy = false
    · rw [LinkMapper.insert, if_pos (Or.inl hd), LinkMapper.insert, if_pos (Or.inl hd)]
    · rcases hl : l with _ | ⟨a, rest⟩
      · rfl
      · rcases hf : (a :: rest).filter Arg.truthy with _ | ⟨b, rest'⟩
        · have h1 : (RangeArg.list (a :: rest)).truthy = true := by
            simp [RangeArg.truthy]
          have h2 : ((RangeArg.list []).truthy = false) := rfl
          rw [LinkMapper.insert, if_neg (by simp [hd, h1]), LinkMapper.insert,
            if_pos (Or.inr h2)]
          have := insertLoop_filter env p desc (a :: rest) domain db none []
          rw [hf] at this
          rw [RangeArg.toList, this]
          rfl
        · have h1 : (RangeArg.list (a :: rest)).truthy = true := by
            simp [RangeArg.truthy]
          have h2 : (RangeArg.list (b :: rest')).truthy = true := by
            simp [RangeArg.truthy]
          rw [LinkMapper.insert, if_neg (by simp [hd, h1]), LinkMapper.insert,
            if_neg (by simp [hd, h2])]
          have := insertLoop_filter env p desc (a :: rest) domain db none []
          rw [hf] at this
          rw [RangeArg.toList, this]
          rfl

/-- Witness for C10: a falsy domain yields no insertion, and a range list
with a falsy element inserts only for the remaining one. -/
theorem c10_witness :
    (Arg.anone.truthy = false ∨ (RangeArg.single (Arg.aent entW10)).truthy = false) ∧
    LinkMapper.insert envW dbW .anone "P1" (.single (.aent entW10)) none = ⟨dbW, none, []⟩ ∧
    LinkMapper.insert envW dbW (.aent entW10) "P1" (.list [.anone, .aent entW11]) none =
      LinkMapper.insert envW dbW (.aent entW10) "P1"
        (.list ([Arg.anone, Arg.aent entW11].filter Arg.truthy)) none := by
  refine ⟨Or.inl rfl, ?_, ?_⟩
  · exact c10_insert_falsy.1 envW dbW .anone "P1" (.single (.aent entW10)) none (Or.inl rfl)
  · exact c10_insert_falsy.2 envW dbW (.aent entW10) "P1" [.anone, .aent entW11] none

/-- Claim C4: `Entity.set_dates` clears the begin (resp. end) date fields
when the begin (resp. end) year-from form field is empty, and builds them
from the form's year/month/day values exactly when it is set. -/
theorem c4_optional_dates
    (f2d : Option Int → Option Int → Option Int → Bool → Option Int)
    (e : EntityDates) (form : DateFormData) (h : form.hasDateFields = true) :
    (form.begin_year_from = none →
      (set_dates f2d e form).begin_from = none ∧
      (set_dates f2d e form).begin_to = none ∧
      (set_dates f2d e form).begin_comment = none) ∧
    (form.end_year_from = none →
      (set_dates f2d e form).end_from = none ∧
      (set_dates f2d e form).end_to = none ∧
      (set_dates f2d e form).end_comment = none) ∧
    (intTruthy form.begin_year_from = true →
      (set_dates f2d e form).begin_from =
        f2d form.begin_year_from form.begin_month_from form.begin_day_from false ∧
      (set_dates f2d e form).begin_to =
        f2d form.begin_year_to form.begin_month_to form.begin_day_to true ∧
      (set_dates f2d e form).begin_comment = form.begin_comment) ∧
    (intTruthy form.end_year_from = true →
      (set_dates f2d e form).end_from =
        f2d form.end_year_from form.end_month_from form.end_day_from false ∧
      (set_dates f2d e form).end_to =
        f2d form.end_year_to form.end_month_to form.end_day_to true ∧
      (set_dates f2d e form).end_comment = form.end_comment) := by
  refine ⟨?_, ?_, ?_, ?_⟩
  · intro hn
    have hb : intTruthy form.begin_year_from = false := by rw [hn]; rfl
    cases he : intTruthy form.end_year_from <;> simp [set_dates, h, hb, he]
  · intro hn
    have he : intTruthy form.end_year_from = false := by rw [hn]; rfl
    cases hb : intTruthy form.begin_year_from <;> simp [set_dates, h, hb, he]
  · intro hb
    cases he : intTruthy form.end_year_from <;> simp [set_dates, h, hb, he]
  · intro he
    cases hb : intTruthy form.begin_year_from <;> simp [set_dates, h, hb, he]

/-- Witness for C4 on `formW` (empty begin year, end year 5): the begin
fields are cleared and the end fields are built from the form. -/
theorem c4_witness :
    (formW.begin_year_from = none →
      (set_dates f2dW eW formW).begin_from = none ∧
      (set_dates f2dW eW formW).begin_to = none ∧
      (set_dates f2dW eW formW).begin_comment = none) ∧
    (formW.end_year_from = none →
      (set_dates f2dW eW formW).end_from = none ∧
      (set_dates f2dW eW formW).end_to = none ∧
      (set_dates f2dW eW formW).end_comment = none) ∧
    (intTruthy formW.begin_year_from = true →
      (set_dates f2dW eW formW).begin_from =
        f2dW formW.begin_year_from formW.begin_month_from formW.begin_day_from false ∧
      (set_dates f2dW eW formW).begin_to =
        f2dW formW.begin_year_to formW.begin_month_to formW.begin_day_to true ∧
      (set_dates f2dW eW formW).begin_comment = formW.begin_comment) ∧
    (intTruthy formW.end_year_from = true →
      (set_dates f2dW eW formW).end_from =
        f2dW formW.end_year_from formW.end_month_from formW.end_day_from false ∧
      (set_dates f2dW eW formW).end_to =
        f2dW formW.end_year_to formW.end_month_to formW.end_day_to true ∧
      (set_dates f2dW eW formW).end_comment = formW.end_comment) :=
  c4_optional_dates f2dW eW formW rfl

/-- Helper: membership in `EntityMapper.get_by_ids` is membership in the
entity table with an id among the requested ones. -/
theorem mem_get_by_ids (db : DB) (ids : List Int) (e : SEntity) :
    e ∈ EntityMapper.get_by_ids db ids ↔ e ∈ db.entities ∧ e.id ∈ ids := by
  cases hi : ids.isEmpty with
  | true =>
    have h0 : ids = [] := List.isEmpty_iff.mp hi
    subst h0
    simp [EntityMapper.get_by_ids]
  | false =>
    simp [EntityMapper.get_by_ids, hi, List.mem_filter, List.contains, List.elem_iff]

/-- Helper: membership characterisation of
`LinkMapper.get_linked_entities`. -/
theorem mem_get_linked_entities (db : DB) (entity : SEntity) (codes : List String)
    (inverse : Bool) (e : SEntity) :
    e ∈ LinkMapper.get_linked_entities db entity codes inverse ↔
      e ∈ db.entities ∧ ∃ l ∈ db.links, l.property_code ∈ codes ∧
        ((inverse = false ∧ l.domain_id = entity.id ∧ l.range_id = e.id) ∨
         (inverse = true ∧ l.range_id = entity.id ∧ l.domain_id = e.id)) := by
  cases inverse with
  | false =>
    simp only [LinkMapper.get_linked_entities, Bool.false_eq_true, if_false]
    rw [mem_get_by_ids]
    simp [List.mem_map, List.mem_filter, List.contains, List.elem_iff]
    intro _
    constructor
    · rintro ⟨l, ⟨hl, hd, hc⟩, hr⟩
      exact ⟨l, hl, hc, hd, hr⟩
    · rintro ⟨l, hl, hc, hd, hr⟩
      exact ⟨l, ⟨hl, hd, hc⟩, hr⟩
  | true =>
    simp only [LinkMapper.get_linked_entities, if_true]
    rw [mem_get_by_ids]
    simp [List.mem_map, List.mem_filter, List.contains, List.elem_iff]
    intro _
    constructor
    · rintro ⟨l, ⟨hl, hd, hc⟩, hr⟩
      exact ⟨l, hl, hc, hd, hr⟩
    · rintro ⟨l, hl, hc, hd, hr⟩
      exact ⟨l, ⟨hl, hd, hc⟩, hr⟩

/-- Helper: a call of `LinkMapper.insert` on a single entity pair either
inserts exactly the one new row (validation off or passed), or — in debug
mode with a failing validation — leaves the database unchanged, returns
`None` and flashes the error text. -/
theorem insert_single_entity (env : Env) (db : DB) (d rg : SEntity) (p : String)
    (desc : Option String) :
    (env.debugMode = true ∧ insertErrCond env d rg p = true ∧
      LinkMapper.insert env db (.aent d) p (.single (.aent rg)) desc =
        ⟨db, none,
          [errorLinkText (env.classes d.class_code) (env.classes rg.class_code) p]⟩) ∨
    ((env.debugMode = false ∨ insertErrCond env d rg p = false) ∧
      LinkMapper.insert env db (.aent d) p (.single (.aent rg)) desc =
        ⟨{ db with
            links := db.links ++ [⟨db.nextId, p, d.id, rg.id, desc⟩]
            nextId := db.nextId + 1 },
          some db.nextId, []⟩) := by
  cases hdbg : env.debugMode with
  | false =>
    right
    refine ⟨Or.inl rfl, ?_⟩
    simp [LinkMapper.insert, Arg.truthy, RangeArg.truthy, RangeArg.toList, insertLoop,
      hdbg, Arg.argId]
  | true =>
    cases herr : insertErrCond env d rg p with
    | true =>
      left
      refine ⟨rfl, rfl, ?_⟩
      have herr' := herr
      simp only [insertErrCond] at herr'
      simp [LinkMapper.insert, Arg.truthy, RangeArg.truthy, RangeArg.toList, insertLoop,
        hdbg, Env.resolve, herr']
      revert herr'
      simp [List.contains, List.elem_iff]
      tauto
    | false =>
      right
      refine ⟨Or.inr rfl, ?_⟩
      have herr' := herr
      simp only [insertErrCond] at herr'
      simp [LinkMapper.insert, Arg.truthy, RangeArg.truthy, RangeArg.toList, insertLoop,
        hdbg, Env.resolve, herr', Arg.argId]
      revert herr'
      simp [List.contains, List.elem_iff]

/-- Claim C1: links are rows joined in different directions —
`get_linked_entities` returns exactly the entities whose ids appear as
`range_id` of rows with the queried `domain_id` and a matching property
code (roles swapped under `inverse`), and after a successful
`LinkMapper.insert(domain, p, range_)` the range is among the linked
entities of the domain and the domain among the inverse-linked entities of
the range. -/
theorem c1_links_join :
    (∀ (db : DB) (entity : SEntity) (codes : List String) (inverse : Bool) (e : SEntity),
      e ∈ LinkMapper.get_linked_entities db entity codes inverse ↔
        e ∈ db.entities ∧ ∃ l ∈ db.links, l.property_code ∈ codes ∧
          ((inverse = false ∧ l.domain_id = entity.id ∧ l.range_id = e.id) ∨
           (inverse = true ∧ l.range_id = entity.id ∧ l.domain_id = e.id))) ∧
    (∀ (env : Env) (db : DB) (d rg : SEntity) (p : String) (desc : Option String),
      d ∈ db.entities → rg ∈ db.entities →
      (LinkMapper.insert env db (.aent d) p (.single (.aent rg)) desc).result.isSome = true →
      rg ∈ LinkMapper.get_linked_entities
          (LinkMapper.insert env db (.aent d) p (.single (.aent rg)) desc).db d [p] false ∧
      d ∈ LinkMapper.get_linked_entities
          (LinkMapper.insert env db (.aent d) p (.single (.aent rg)) desc).db rg [p] true) := by
  constructor
  · exact mem_get_linked_entities
  · intro env db d rg p desc hd hrg hsome
    rcases insert_single_entity env db d rg p desc with ⟨-, -, heq⟩ | ⟨-, heq⟩
    · rw [heq] at hsome
      simp at hsome
    · rw [heq]
      constructor
      · rw [mem_get_linked_entities]
        exact ⟨hrg, ⟨db.nextId, p, d.id, rg.id, desc⟩, by simp, by simp,
          Or.inl ⟨rfl, rfl, rfl⟩⟩
      · rw [mem_get_linked_entities]
        exact ⟨hd, ⟨db.nextId, p, d.id, rg.id, desc⟩, by simp, by simp,
          Or.inr ⟨rfl, rfl, rfl⟩⟩

/-- Witness for C1: after inserting a `P2` link from entity 10 to entity 11
in `dbW`, entity 11 is linked from 10 and 10 inverse-linked from 11. -/
theorem c1_witness :
    entW11 ∈ LinkMapper.get_linked_entities
      (LinkMapper.insert envW dbW (.aent entW10) "P2" (.single (.aent entW11)) none).db
      entW10 ["P2"] false ∧
    entW10 ∈ LinkMapper.get_linked_entities
      (LinkMapper.insert envW dbW (.aent entW10) "P2" (.single (.aent entW11)) none).db
      entW11 ["P2"] true :=
  c1_links_join.2 envW dbW entW10 entW11 "P2" none (by decide) (by decide) (by decide)

/-- Claim C2: with validation active (debug mode), `LinkMapper.insert`
inserts the row for an entity pair exactly when the property's whitelisted
domain classes contain the domain's class code (or that code is in
`WHITELISTED_DOMAINS`) and its whitelisted range classes contain the
range's class code; a failing pair is skipped and the error is flashed. -/
theorem c2_validation_whitelist (env : Env) (db : DB) (d rg : SEntity) (p : String)
    (desc : Option String) (hdbg : env.debugMode = true)
    (hcd : (env.classes d.class_code).code = d.class_code)
    (hcr : (env.classes rg.class_code).code = rg.class_code) :
    ((d.class_code ∈ (env.properties p).domainClassCodes ∨
        d.class_code ∈ env.whitelistedDomains) ∧
      rg.class_code ∈ (env.properties p).rangeClassCodes →
      LinkMapper.insert env db (.aent d) p (.single (.aent rg)) desc =
        ⟨{ db with
            links := db.links ++ [⟨db.nextId, p, d.id, rg.id, desc⟩]
            nextId := db.nextId + 1 },
          some db.nextId, []⟩) ∧
    (¬ (((d.class_code ∈ (env.properties p).domainClassCodes ∨
        d.class_code ∈ env.whitelistedDomains) ∧
      rg.class_code ∈ (env.properties p).rangeClassCodes)) →
      LinkMapper.insert env db (.aent d) p (.single (.aent rg)) desc =
        ⟨db, none,
          [errorLinkText (env.classes d.class_code) (env.classes rg.class_code) p]⟩) := by
  have hiff : insertErrCond env d rg p = false ↔
      ((d.class_code ∈ (env.properties p).domainClassCodes ∨
          d.class_code ∈ env.whitelistedDomains) ∧
        rg.class_code ∈ (env.properties p).rangeClassCodes) := by
    simp [insertErrCond, hcd, hcr, List.contains, List.elem_iff]
    tauto
  constructor
  · intro hv
    rcases insert_single_entity env db d rg p desc with ⟨-, herr, -⟩ | ⟨-, heq⟩
    · rw [hiff.mpr hv] at herr
      cases herr
    · exact heq
  · intro hv
    have herr : insertErrCond env d rg p = true := by
      cases hec : insertErrCond env d rg p with
      | false => exact absurd (hiff.mp hec) hv
      | true => rfl
    rcases insert_single_entity env db d rg p desc with ⟨-, -, heq⟩ | ⟨hor, heq⟩
    · exact heq
    · rcases hor with h | h
      · rw [hdbg] at h; cases h
      · rw [herr] at h; cases h

/-- Witness for C2: in `envWdbg` (debug mode, `P1` accepting domain and
range class `E21`), inserting between two `E21` entities adds the row. -/
theorem c2_witness :
    LinkMapper.insert envWdbg dbW (.aent entW10) "P1" (.single (.aent entW11)) none =
      ⟨{ dbW with
          links := dbW.links ++ [⟨dbW.nextId, "P1", entW10.id, entW11.id, none⟩]
          nextId := dbW.nextId + 1 },
        some dbW.nextId, []⟩ :=
  (c2_validation_whitelist envWdbg dbW entW10 entW11 "P1" none rfl rfl rfl).1
    (by constructor
        · exact Or.inl (by decide)
        · decide)

/-- Helper: executing an appended trace is sequential execution. -/
theorem execOps_append (a b : List DbOp) (s : DbState) :
    execOps (a ++ b) s = execOps b (execOps a s) :=
  List.foldl_append ..

/-- Helper: a successful run of the `try` block issues as many `COMMIT`s as
there are commit statements in it. -/
theorem runEvents_count_commit (ev : List SaveEvent) :
    (runEvents ev none).count DbOp.commit = ev.count SaveEvent.commitStep := by
  induction ev with
  | nil => rfl
  | cons e rest ih =>
    cases e <;> simp [runEvents, List.count_cons, List.count_append, ih]

/-- Helper: every branch configuration of `save` contains exactly one
`COMMIT` statement. -/
theorem saveEvents_count_commit (um g : Bool) (o : Option OriginKind) (c : Bool) :
    (saveEvents um g o c).count SaveEvent.commitStep = 1 := by
  cases o with
  | none => cases um <;> cases g <;> cases c <;> decide
  | some k => cases k <;> cases um <;> cases g <;> cases c <;> decide

/-- Helper: a run failing before any `COMMIT` statement, applied inside an
open transaction, ends in `ROLLBACK` and discards the buffered writes. -/
theorem runEvents_no_commit_exec (ev : List SaveEvent) :
    ∀ (i : Nat) (comm pend : List WTag), i < ev.length →
      (∀ e ∈ ev.take i, e ≠ SaveEvent.commitStep) →
      execOps (runEvents ev (some i)) ⟨comm, some pend⟩ = ⟨comm, none⟩ := by
  induction ev with
  | nil => intro i comm pend hi _; simp at hi
  | cons e rest ih =>
    intro i comm pend hi hnc
    cases i with
    | zero => rfl
    | succ n =>
      have hn : n < rest.length := by simpa using Nat.succ_lt_succ_iff.mp (by simpa using hi)
      have hncr : ∀ x ∈ rest.take n, x ≠ SaveEvent.commitStep := by
        intro x hx
        exact hnc x (by simp [List.take_succ_cons, hx])
      cases e with
      | write t =>
        simp only [runEvents, List.cons_append, List.nil_append]
        exact ih n comm (pend ++ [t]) hn hncr
      | pureStep =>
        simp only [runEvents, List.nil_append]
        exact ih n comm pend hn hncr
      | commitStep =>
        exact absurd rfl (hnc SaveEvent.commitStep (by simp [List.take_succ_cons]))

/-- Helper: a failing run ends with the handler's `ROLLBACK`. -/
theorem runEvents_ends_rollback (ev : List SaveEvent) :
    ∀ i : Nat, i < ev.length →
      ∃ pre, runEvents ev (some i) = pre ++ [DbOp.rollback] := by
  induction ev with
  | nil => intro i hi; simp at hi
  | cons e rest ih =>
    intro i hi
    cases i with
    | zero => exact ⟨[], rfl⟩
    | succ n =>
      have hn : n < rest.length := by simpa using Nat.succ_lt_succ_iff.mp (by simpa using hi)
      obtain ⟨pre, hp⟩ := ih n hn
      cases e with
      | write t => exact ⟨DbOp.write t :: pre, by simp [runEvents, hp]⟩
      | pureStep => exact ⟨pre, by simp [runEvents, hp]⟩
      | commitStep => exact ⟨DbOp.commit :: pre, by simp [runEvents, hp]⟩

/-- Claim C6 (amended): the place `save` executes `BEGIN` before any write,
executes `COMMIT` exactly once on success, and on any exception raised
before the `COMMIT` statement executes `ROLLBACK` leaving the database
unchanged; every failing run ends with `ROLLBACK` (also after `COMMIT`,
where the committed changes persist — see the counterexample). -/
theorem c6_transaction :
    (∀ (um g : Bool) (o : Option OriginKind) (c : Bool) (failAt : Option Nat),
      ∃ rest, saveTrace um g o c failAt = DbOp.begin :: rest) ∧
    (∀ (um g : Bool) (o : Option OriginKind) (c : Bool),
      (saveTrace um g o c none).count DbOp.commit = 1) ∧
    (∀ (um g : Bool) (o : Option OriginKind) (c : Bool) (i : Nat) (comm : List WTag),
      i < (saveEvents um g o c).length →
      (∀ e ∈ (saveEvents um g o c).take i, e ≠ SaveEvent.commitStep) →
      execOps (saveTrace um g o c (some i)) ⟨comm, none⟩ = ⟨comm, none⟩) ∧
    (∀ (um g : Bool) (o : Option OriginKind) (c : Bool) (i : Nat),
      i < (saveEvents um g o c).length →
      ∃ pre, saveTrace um g o c (some i) = pre ++ [DbOp.rollback]) := by
  refine ⟨?_, ?_, ?_, ?_⟩
  · intro um g o c failAt
    exact ⟨_, rfl⟩
  · intro um g o c
    simp [saveTrace, List.count_cons, runEvents_count_commit, saveEvents_count_commit]
  · intro um g o c i comm hi hnc
    have h1 := runEvents_no_commit_exec (saveEvents um g o c) i comm [] hi hnc
    calc execOps (saveTrace um g o c (some i)) ⟨comm, none⟩
        = execOps (runEvents (saveEvents um g o c) (some i)) ⟨comm, some []⟩ := rfl
      _ = ⟨comm, none⟩ := h1
  · intro um g o c i hi
    obtain ⟨pre, hp⟩ := runEvents_ends_rollback (saveEvents um g o c) i hi
    exact ⟨DbOp.begin :: pre, by simp [saveTrace, hp]⟩

/-- Witness for C6: an exception at statement 2 (before the `COMMIT`) of an
update-mode save rolls back and leaves the database unchanged. -/
theorem c6_witness :
    (2 < (saveEvents true false none false).length ∧
      ∀ e ∈ (saveEvents true false none false).take 2, e ≠ SaveEvent.commitStep) ∧
    execOps (saveTrace true false none false (some 2)) ⟨[], none⟩ = ⟨[], none⟩ :=
  ⟨⟨by decide, by decide⟩,
    c6_transaction.2.2.1 true false none false 2 [] (by decide) (by decide)⟩

/-- Claim C6, counterexample: an exception raised at statement 6 — the
post-commit `logger.log_user` call, still inside the `try` block — triggers
the handler's `ROLLBACK`, yet the database state is NOT unchanged: the
writes were already committed.  So "on any exception executes ROLLBACK so
that the database state is unchanged" fails as stated. -/
theorem c6_counterexample :
    DbOp.rollback ∈ saveTrace true false none false (some 6) ∧
    execOps (saveTrace true false none false (some 6)) ⟨[], none⟩ ≠ ⟨[], none⟩ := by
  decide

/-- Helper: the keys of the search dict after one step — replacement keeps
the keys, a fresh id is appended. -/
theorem upsert_keys (acc : List (Int × SearchEntity)) (e : SearchEntity) :
    (upsert acc e).map Prod.fst =
      if (acc.any fun p => p.1 == e.id) = true then acc.map Prod.fst
      else acc.map Prod.fst ++ [e.id] := by
  unfold upsert
  split
  · rw [List.map_map]
    exact List.map_congr_left (fun p _ => by dsimp; split <;> rfl)
  · simp

/-- Helper: one `upsert` step keeps the dict well-formed: distinct keys and
each value's id equal to its key. -/
theorem upsert_preserves (acc : List (Int × SearchEntity)) (e : SearchEntity)
    (hk : (acc.map Prod.fst).Nodup) (hv : ∀ p ∈ acc, p.2.id = p.1) :
    ((upsert acc e).map Prod.fst).Nodup ∧ ∀ p ∈ upsert acc e, p.2.id = p.1 := by
  constructor
  · rw [upsert_keys]
    split
    · exact hk
    · next hc =>
      rw [List.nodup_append]
      refine ⟨hk, List.nodup_singleton _, ?_⟩
      intro i hi hi2
      simp only [List.mem_singleton] at hi2
      subst hi2
      obtain ⟨p, hp, hpi⟩ := List.mem_map.mp hi
      exact hc (List.any_eq_true.mpr ⟨p, hp, by simp [hpi]⟩)
  · intro p hp
    unfold upsert at hp
    split at hp
    · obtain ⟨q, hq, rfl⟩ := List.mem_map.mp hp
      split
      · next h => simp [(beq_iff_eq ..).mp h]
      · exact hv q hq
    · rcases List.mem_append.mp hp with h | h
      · exact hv p h
      · simp only [List.mem_singleton] at h
        subst h
        rfl

/-- Helper: the search dict built by the fold is well-formed. -/
theorem dictById_invariant (l : List SearchEntity) :
    ∀ acc, (acc.map Prod.fst).Nodup → (∀ p ∈ acc, p.2.id = p.1) →
      ((l.foldl upsert acc).map Prod.fst).Nodup ∧
      ∀ p ∈ l.foldl upsert acc, p.2.id = p.1 := by
  induction l with
  | nil => intro acc hk hv; exact ⟨hk, hv⟩
  | cons e rest ih =>
    intro acc hk hv
    have h := upsert_preserves acc e hk hv
    exact ih (upsert acc e) h.1 h.2

/-- Helper: every value of the search dict comes from the accumulator or
from the input list. -/
theorem mem_values_dict (l : List SearchEntity) :
    ∀ (acc : List (Int × SearchEntity)) (x : SearchEntity),
      x ∈ (l.foldl upsert acc).map Prod.snd → x ∈ acc.map Prod.snd ∨ x ∈ l := by
  induction l with
  | nil => intro acc x hx; exact Or.inl hx
  | cons e rest ih =>
    intro acc x hx
    rcases ih (upsert acc e) x hx with h | h
    · unfold upsert at h
      split at h
      · obtain ⟨p, hp, hpx⟩ := List.mem_map.mp h
        obtain ⟨q, hq, rfl⟩ := List.mem_map.mp hp
        split at hpx
        · exact Or.inr (hpx ▸ List.mem_cons_self e rest)
        · exact Or.inl (List.mem_map.mpr ⟨q, hq, hpx⟩)
      · rw [List.map_append] at h
        rcases List.mem_append.mp h with h2 | h2
        · exact Or.inl h2
        · simp only [List.map_cons, List.map_nil, List.mem_singleton] at h2
          exact Or.inr (h2 ▸ List.mem_cons_self e rest)
    · exact Or.inr (List.mem_cons_of_mem e h)

/-- Helper: the key set of the search dict is the id set of the input. -/
theorem mem_keys_dict (l : List SearchEntity) :
    ∀ (acc : List (Int × SearchEntity)) (i : Int),
      i ∈ (l.foldl upsert acc).map Prod.fst ↔
        i ∈ acc.map Prod.fst ∨ i ∈ l.map SearchEntity.id := by
  induction l with
  | nil => intro acc i; simp
  | cons e rest ih =>
    intro acc i
    rw [List.foldl_cons, ih (upsert acc e) i, upsert_keys]
    split
    · next hc =>
      constructor
      · rintro (h | h)
        · exact Or.inl h
        · exact Or.inr (List.mem_cons_of_mem _ h)
      · rintro (h | h)
        · exact Or.inl h
        · rcases List.mem_cons.mp h with h2 | h2
          · obtain ⟨p, hp, hpe⟩ := List.any_eq_true.mp hc
            refine Or.inl (List.mem_map.mpr ⟨p, hp, ?_⟩)
            rw [h2]
            exact (beq_iff_eq ..).mp hpe
          · exact Or.inr h2
    · constructor
      · rintro (h | h)
        · rcases List.mem_append.mp h with h2 | h2
          · exact Or.inl h2
          · simp only [List.mem_singleton] at h2
            exact Or.inr (h2 ▸ List.mem_cons_self _ _)
        · exact Or.inr (List.mem_cons_of_mem _ h)
      · rintro (h | h)
        · exact Or.inl (List.mem_append.mpr (Or.inl h))
        · rcases List.mem_cons.mp h with h2 | h2
          · exact Or.inl (List.mem_append.mpr (Or.inr (by simp [h2])))
          · exact Or.inr h2

/-- Helper: one unfolding step of the search result loop. -/
theorem searchCollect_cons (resolveLinked : Int → String → Bool → Option SearchEntity)
    (classes : List String) (fd td : Option Int) (incl : Bool)
    (row : SearchRow) (rest : List SearchRow) :
    searchCollect resolveLinked classes fd td incl (row :: rest) =
      match resolveRow resolveLinked classes row with
      | none => searchCollect resolveLinked classes fd td incl rest
      | some entity =>
        if rowDateOk fd td incl entity then
          entity :: searchCollect resolveLinked classes fd td incl rest
        else searchCollect resolveLinked classes fd td incl rest := rfl

/-- Helper: membership in the intermediate `entities` list of the search
result loop. -/
theorem mem_searchCollect (resolveLinked : Int → String → Bool → Option SearchEntity)
    (classes : List String) (fd td : Option Int) (incl : Bool)
    (rows : List SearchRow) (e : SearchEntity) :
    e ∈ searchCollect resolveLinked classes fd td incl rows ↔
      ∃ row ∈ rows, resolveRow resolveLinked classes row = some e ∧
        rowDateOk fd td incl e = true := by
  induction rows with
  | nil => simp [searchCollect]
  | cons row rest ih =>
    rw [searchCollect_cons]
    cases hr : resolveRow resolveLinked classes row with
    | none =>
      show e ∈ searchCollect resolveLinked classes fd td incl rest ↔ _
      rw [ih]
      constructor
      · rintro ⟨r, hrw, hres, hok⟩
        exact ⟨r, List.mem_cons_of_mem _ hrw, hres, hok⟩
      · rintro ⟨r, hrw, hres, hok⟩
        rcases List.mem_cons.mp hrw with h2 | h2
        · subst h2
          rw [hr] at hres
          cases hres
        · exact ⟨r, h2, hres, hok⟩
    | some ent =>
      show e ∈ (if rowDateOk fd td incl ent then
          ent :: searchCollect resolveLinked classes fd td incl rest
        else searchCollect resolveLinked classes fd td incl rest) ↔ _
      cases hok : rowDateOk fd td incl ent with
      | true =>
        rw [if_pos rfl, List.mem_cons, ih]
        constructor
        · rintro (rfl | ⟨r, hrw, hres, hok2⟩)
          · exact ⟨row, List.mem_cons_self _ _, hr, hok⟩
          · exact ⟨r, List.mem_cons_of_mem _ hrw, hres, hok2⟩
        · rintro ⟨r, hrw, hres, hok2⟩
          rcases List.mem_cons.mp hrw with h2 | h2
          · subst h2
            rw [hr] at hres
            exact Or.inl (Option.some.inj hres).symm
          · exact Or.inr ⟨r, h2, hres, hok2⟩
      | false =>
        rw [if_neg (by simp), ih]
        constructor
        · rintro ⟨r, hrw, hres, hok2⟩
          exact ⟨r, List.mem_cons_of_mem _ hrw, hres, hok2⟩
        · rintro ⟨r, hrw, hres, hok2⟩
          rcases List.mem_cons.mp hrw with h2 | h2
          · subst h2
            rw [hr] at hres
            obtain rfl := (Option.some.inj hres)
            rw [hok] at hok2
            cases hok2
          · exact ⟨r, h2, hres, hok2⟩

/-- Claim C8: `Entity.search` returns at most one entity per id — the ids
of the returned collection are pairwise distinct. -/
theorem c8_search_dedup (resolveLinked : Int → String → Bool → Option SearchEntity)
    (classes : List String) (term : String) (fd td : Option Int) (incl : Bool)
    (rows : List SearchRow) :
    ((search resolveLinked classes term fd td incl rows).map SearchEntity.id).Nodup := by
  unfold search
  split
  · simp
  · have h := dictById_invariant
      (searchCollect resolveLinked classes fd td incl rows) [] (by simp) (by simp)
    rw [List.map_map]
    have hmap :
        (dictById (searchCollect resolveLinked classes fd td incl rows)).map
            (SearchEntity.id ∘ Prod.snd) =
          (dictById (searchCollect resolveLinked classes fd td incl rows)).map Prod.fst :=
      List.map_congr_left (fun p hp => h.2 p hp)
    rw [hmap]
    exact h.1

/-- Helper: the begin check accepts exactly when there is no `from_date`
or some defined date of the entity is at least it. -/
theorem beginCheckOk_iff (fd : Option Int) (e : SearchEntity) :
    beginCheckOk fd e = true ↔
      (fd = none ∨ ∃ f d, fd = some f ∧ some d ∈ entityDates e ∧ f ≤ d) := by
  cases fd with
  | none => simp [beginCheckOk]
  | some f =>
    simp only [beginCheckOk, List.any_eq_true, reduceCtorEq, false_or]
    constructor
    · rintro ⟨d, hd, hmatch⟩
      cases d with
      | none => simp at hmatch
      | some x => exact ⟨f, x, rfl, hd, by simpa using hmatch⟩
    · rintro ⟨f', d, hf, hd, hle⟩
      obtain rfl : f' = f := (Option.some.inj hf).symm
      exact ⟨some d, hd, by simpa using hle⟩

/-- Helper: the end check accepts exactly when there is no `to_date` or
some defined date of the entity is at most it. -/
theorem endCheckOk_iff (td : Option Int) (e : SearchEntity) :
    endCheckOk td e = true ↔
      (td = none ∨ ∃ t d, td = some t ∧ some d ∈ entityDates e ∧ d ≤ t) := by
  cases td with
  | none => simp [endCheckOk]
  | some t =>
    simp only [endCheckOk, List.any_eq_true, reduceCtorEq, false_or]
    constructor
    · rintro ⟨d, hd, hmatch⟩
      cases d with
      | none => simp at hmatch
      | some x => exact ⟨t, x, rfl, hd, by simpa using hmatch⟩
    · rintro ⟨t', d, ht, hd, hle⟩
      obtain rfl : t' = t := (Option.some.inj ht).symm
      exact ⟨some d, hd, by simpa using hle⟩

/-- Helper: an entity that some fetched row resolves to is in the final
search collection iff the result loop's date decision accepts it (assuming
no other entity shares its id among the resolved rows). -/
theorem mem_search_iff_dateOk (resolveLinked : Int → String → Bool → Option SearchEntity)
    (classes : List String) (term : String) (fd td : Option Int) (incl : Bool)
    (rows : List SearchRow) (e : SearchEntity)
    (hterm : ¬ term = "")
    (hinj : ∀ row ∈ rows, ∀ e', resolveRow resolveLinked classes row = some e' →
      e'.id = e.id → e' = e)
    (hrow : ∃ row ∈ rows, resolveRow resolveLinked classes row = some e) :
    e ∈ search resolveLinked classes term fd td incl rows ↔
      rowDateOk fd td incl e = true := by
  unfold search
  rw [if_neg (by simpa using hterm)]
  constructor
  · intro hx
    have hcollect : e ∈ searchCollect resolveLinked classes fd td incl rows := by
      rcases mem_values_dict (searchCollect resolveLinked classes fd td incl rows) [] e hx
        with h | h
      · simp at h
      · exact h
    exact ((mem_searchCollect resolveLinked classes fd td incl rows e).mp hcollect).choose_spec.2.2
  · intro hok
    obtain ⟨row, hrw, hres⟩ := hrow
    have hcollect : e ∈ searchCollect resolveLinked classes fd td incl rows :=
      (mem_searchCollect resolveLinked classes fd td incl rows e).mpr ⟨row, hrw, hres, hok⟩
    have hid : e.id ∈
        ((searchCollect resolveLinked classes fd td incl rows).foldl upsert []).map
          Prod.fst := by
      rw [mem_keys_dict]
      exact Or.inr (List.mem_map.mpr ⟨e, hcollect, rfl⟩)
    obtain ⟨p, hp, hpid⟩ := List.mem_map.mp hid
    have hvals := (dictById_invariant
      (searchCollect resolveLinked classes fd td incl rows) [] (by simp) (by simp)).2 p hp
    have hpv : p.2 ∈ (dictById (searchCollect resolveLinked classes fd td incl rows)).map
        Prod.snd := List.mem_map.mpr ⟨p, hp, rfl⟩
    have hpc : p.2 ∈ searchCollect resolveLinked classes fd td incl rows := by
      rcases mem_values_dict (searchCollect resolveLinked classes fd td incl rows) [] p.2 hpv
        with h | h
      · simp at h
      · exact h
    obtain ⟨row2, hrw2, hres2, -⟩ :=
      (mem_searchCollect resolveLinked classes fd td incl rows p.2).mp hpc
    have : p.2 = e := hinj row2 hrw2 p.2 hres2 (by rw [hvals, hpid])
    rw [← this]
    exact hpv

/-- Claim C3: for a search carrying a `from_date` and/or `to_date`
criterion, an entity with at least one of the four dates is returned iff
(no `from_date`, or one of its dates is `>=` it) and (no `to_date`, or one
of its dates is `<=` it); an entity with none of the four dates is returned
iff the `include_dateless` flag is set (in particular only when it is). -/
theorem c3_date_search (resolveLinked : Int → String → Bool → Option SearchEntity)
    (classes : List String) (term : String) (fd td : Option Int) (incl : Bool)
    (rows : List SearchRow) (e : SearchEntity)
    (hterm : ¬ term = "")
    (hinj : ∀ row ∈ rows, ∀ e', resolveRow resolveLinked classes row = some e' →
      e'.id = e.id → e' = e)
    (hcrit : fd.isSome = true ∨ td.isSome = true)
    (hrow : ∃ row ∈ rows, resolveRow resolveLinked classes row = some e) :
    (hasNoDates e = false →
      (e ∈ search resolveLinked classes term fd td incl rows ↔
        ((fd = none ∨ ∃ f d, fd = some f ∧ some d ∈ entityDates e ∧ f ≤ d) ∧
         (td = none ∨ ∃ t d, td = some t ∧ some d ∈ entityDates e ∧ d ≤ t)))) ∧
    (hasNoDates e = true →
      (e ∈ search resolveLinked classes term fd td incl rows ↔ incl = true)) := by
  have hne : (fd.isNone && td.isNone) = false := by
    rcases hcrit with h | h <;> cases fd <;> cases td <;> simp_all
  have hmem := mem_search_iff_dateOk resolveLinked classes term fd td incl rows e
    hterm hinj hrow
  constructor
  · intro hnd
    rw [hmem]
    rw [show rowDateOk fd td incl e = (beginCheckOk fd e && endCheckOk td e) by
      simp [rowDateOk, hne, hnd]]
    rw [Bool.and_eq_true, beginCheckOk_iff, endCheckOk_iff]
  · intro hnd
    rw [hmem]
    rw [show rowDateOk fd td incl e = incl by simp [rowDateOk, hne, hnd]]

/-- Witness for C3: the dated `place` row `rowW` is found by a search with
`from_date` 3 (its `begin_from` 5 satisfies the criterion). -/
theorem c3_witness :
    entSW ∈ search resolveW ["place"] "x" (some 3) none false [rowW] := by
  have h := (c3_date_search resolveW ["place"] "x" (some 3) none false [rowW] entSW
    (by decide)
    (by
      intro row hrw e' h1 h2
      simp only [List.mem_singleton] at hrw
      subst hrw
      have h0 : resolveRow resolveW ["place"] rowW = some entSW := rfl
      exact (Option.some.inj (h0.symm.trans h1)).symm)
    (Or.inl rfl)
    ⟨rowW, List.mem_singleton_self rowW, rfl⟩).1 rfl
  exact h.mpr ⟨Or.inr ⟨3, 5, rfl, by decide, by decide⟩, Or.inl rfl⟩

/-- Helper: one unfolding step of the `get_similar_named` outer loop. -/
theorem gsnAux_cons (simFn : String → String → Int) (minSim : Int) (all : List SEntity)
    (s : SEntity) (rest : List SEntity) (added : List Int) :
    gsnAux simFn minSim all (s :: rest) added =
      if added.contains s.id then gsnAux simFn minSim all rest added
      else (s, similarMatches simFn minSim all s) ::
        gsnAux simFn minSim all rest
          (if (similarMatches simFn minSim all s).isEmpty then added
           else added ++ s.id :: (similarMatches simFn minSim all s).map (fun e => e.id)) := by
  simp only [gsnAux]
  by_cases hsk : added.contains s.id = true
  · rw [if_pos hsk, if_pos hsk]
  · rw [if_neg hsk, if_neg hsk]
    by_cases hemp : (similarMatches simFn minSim all s).isEmpty = true
    · rw [if_pos hemp, if_pos hemp]
    · rw [if_neg hemp, if_neg hemp]

/-- Helper: one unfolding step of the `already_added` set. -/
theorem gsnAcc_cons (simFn : String → String → Int) (minSim : Int) (all : List SEntity)
    (s : SEntity) (rest : List SEntity) (added : List Int) :
    gsnAcc simFn minSim all (s :: rest) added =
      if added.contains s.id then gsnAcc simFn minSim all rest added
      else gsnAcc simFn minSim all rest
        (if (similarMatches simFn minSim all s).isEmpty then added
         else added ++ s.id :: (similarMatches simFn minSim all s).map (fun e => e.id)) := by
  simp only [gsnAcc]
  by_cases hsk : added.contains s.id = true
  · rw [if_pos hsk, if_pos hsk]
  · rw [if_neg hsk, if_neg hsk]
    by_cases hemp : (similarMatches simFn minSim all s).isEmpty = true
    · rw [if_pos hemp, if_pos hemp]
    · rw [if_neg hemp, if_neg hemp]

/-- Helper: a sample's group appears in the outer loop's output exactly
when the sample is in the processed list and its id was not in the
`already_added` set when its turn came; the group is always the inner-loop
filter over all entities. -/
theorem gsnAux_mem (simFn : String → String → Int) (minSim : Int) (all : List SEntity) :
    ∀ (l : List SEntity) (added : List Int) (A : SEntity) (g : List SEntity),
      (A, g) ∈ gsnAux simFn minSim all l added ↔
        ∃ pre post, l = pre ++ A :: post ∧
          A.id ∉ gsnAcc simFn minSim all pre added ∧
          g = similarMatches simFn minSim all A := by
  intro l
  induction l with
  | nil =>
    intro added A g
    constructor
    · intro h
      exact absurd h (List.not_mem_nil _)
    · rintro ⟨pre, post, h, -, -⟩
      exact absurd h.symm (by simp)
  | cons s rest ih =>
    intro added A g
    rw [gsnAux_cons]
    by_cases hsk : added.contains s.id = true
    · rw [if_pos hsk]
      constructor
      · intro h
        obtain ⟨pre, post, hsp, hacc, hg⟩ := (ih added A g).mp h
        refine ⟨s :: pre, post, by rw [List.cons_append, hsp], ?_, hg⟩
        rwa [gsnAcc_cons, if_pos hsk]
      · rintro ⟨pre, post, hsp, hacc, hg⟩
        cases pre with
        | nil =>
          simp only [List.nil_append] at hsp
          obtain ⟨rfl, rfl⟩ := List.cons.inj hsp
          exact absurd (List.elem_iff.mp hsk) (by simpa [gsnAcc] using hacc)
        | cons q pre' =>
          rw [List.cons_append] at hsp
          obtain ⟨rfl, hrest⟩ := List.cons.inj hsp
          apply (ih added A g).mpr
          refine ⟨pre', post, hrest, ?_, hg⟩
          rwa [gsnAcc_cons, if_pos hsk] at hacc
    · rw [if_neg hsk]
      constructor
      · intro h
        rcases List.mem_cons.mp h with hhd | htl
        · injection hhd with h1 h2
          subst h1
          refine ⟨[], rest, by simp, ?_, h2⟩
          simpa [gsnAcc, List.elem_iff] using hsk
        · obtain ⟨pre, post, hsp, hacc, hg⟩ := (ih _ A g).mp htl
          refine ⟨s :: pre, post, by rw [List.cons_append, hsp], ?_, hg⟩
          rwa [gsnAcc_cons, if_neg hsk]
      · rintro ⟨pre, post, hsp, hacc, hg⟩
        cases pre with
        | nil =>
          simp only [List.nil_append] at hsp
          obtain ⟨rfl, rfl⟩ := List.cons.inj hsp
          subst hg
          exact List.mem_cons_self _ _
        | cons q pre' =>
          rw [List.cons_append] at hsp
          obtain ⟨rfl, hrest⟩ := List.cons.inj hsp
          apply List.mem_cons_of_mem
          apply (ih _ A g).mpr
          refine ⟨pre', post, hrest, ?_, hg⟩
          rwa [gsnAcc_cons, if_neg hsk] at hacc

/-- Helper: for an id not among the processed samples, membership in the
`already_added` set after processing them means the id was put into the
group of one of those samples (or was in the set already). -/
theorem gsnAcc_mem (simFn : String → String → Int) (minSim : Int) (all : List SEntity) :
    ∀ (l : List SEntity) (added : List Int) (i : Int), i ∉ l.map SEntity.id →
      (i ∈ gsnAcc simFn minSim all l added ↔
        i ∈ added ∨ ∃ S gS, (S, gS) ∈ gsnAux simFn minSim all l added ∧
          i ∈ gS.map SEntity.id) := by
  intro l
  induction l with
  | nil =>
    intro added i hi
    simp [gsnAcc, gsnAux]
  | cons s rest ih =>
    intro added i hi
    simp only [List.map_cons, List.mem_cons, not_or] at hi
    obtain ⟨hi1, hi2⟩ := hi
    rw [gsnAcc_cons, gsnAux_cons]
    by_cases hsk : added.contains s.id = true
    · rw [if_pos hsk, if_pos hsk]
      exact ih added i hi2
    · rw [if_neg hsk, if_neg hsk]
      rw [ih _ i hi2]
      by_cases hemp : (similarMatches simFn minSim all s).isEmpty = true
      · rw [if_pos hemp]
        have hg0 : similarMatches simFn minSim all s = [] := List.isEmpty_iff.mp hemp
        constructor
        · rintro (h | ⟨S, gS, hm, hig⟩)
          · exact Or.inl h
          · exact Or.inr ⟨S, gS, List.mem_cons_of_mem _ hm, hig⟩
        · rintro (h | ⟨S, gS, hm, hig⟩)
          · exact Or.inl h
          · rcases List.mem_cons.mp hm with hhd | htl
            · injection hhd with h1 h2
              rw [h2, hg0] at hig
              simp at hig
            · exact Or.inr ⟨S, gS, htl, hig⟩
      · rw [if_neg hemp]
        constructor
        · rintro (h | ⟨S, gS, hm, hig⟩)
          · rcases List.mem_append.mp h with h2 | h2
            · exact Or.inl h2
            · rcases List.mem_cons.mp h2 with h3 | h3
              · exact absurd h3 hi1
              · exact Or.inr ⟨s, similarMatches simFn minSim all s,
                  List.mem_cons_self _ _, h3⟩
          · exact Or.inr ⟨S, gS, List.mem_cons_of_mem _ hm, hig⟩
        · rintro (h | ⟨S, gS, hm, hig⟩)
          · exact Or.inl (List.mem_append.mpr (Or.inl h))
          · rcases List.mem_cons.mp hm with hhd | htl
            · injection hhd with h1 h2
              exact Or.inl (List.mem_append.mpr
                (Or.inr (List.mem_cons_of_mem _ (h2 ▸ hig))))
            · exact Or.inr ⟨S, gS, htl, hig⟩

/-- Claim C7: with distinct entity ids, `get_similar_named` puts B into
sample A's group exactly when A occurs in the class's entities, B does too,
their ids differ, their name similarity reaches the threshold, and A had
not been put into the group of any earlier sample; and every returned group
is non-empty. -/
theorem c7_similar_named (simFn : String → String → Int) (minSim : Int)
    (entities : List SEntity) (hnd : (entities.map SEntity.id).Nodup) :
    (∀ A B : SEntity,
      (∃ g, (A, g) ∈ get_similar_named simFn minSim entities ∧ B ∈ g) ↔
        ∃ pre post, entities = pre ++ A :: post ∧
          B ∈ entities ∧ B.id ≠ A.id ∧ minSim ≤ simFn A.name B.name ∧
          ¬ ∃ S gS, (S, gS) ∈ gsnAux simFn minSim entities pre [] ∧
            A.id ∈ gS.map SEntity.id) ∧
    (∀ A g, (A, g) ∈ get_similar_named simFn minSim entities → g ≠ []) := by
  constructor
  · intro A B
    constructor
    · rintro ⟨g, hmem, hB⟩
      have hmem2 : (A, g) ∈ gsnAux simFn minSim entities entities [] :=
        (List.mem_filter.mp hmem).1
      obtain ⟨pre, post, hsp, hacc, hg⟩ :=
        (gsnAux_mem simFn minSim entities entities [] A g).mp hmem2
      have hApre : A.id ∉ pre.map SEntity.id := by
        have h1 := hnd
        rw [hsp] at h1
        simp only [List.map_append, List.map_cons] at h1
        have h2 := (List.nodup_append.mp h1).2.2
        intro hmem3
        exact h2 hmem3 (List.mem_cons_self _ _)
      subst hg
      have hBm := List.mem_filter.mp (hB)
      refine ⟨pre, post, hsp, hBm.1, ?_, ?_, ?_⟩
      · have := hBm.2
        simp only [Bool.and_eq_true, bne_iff_ne, ne_eq, decide_eq_true_eq] at this
        exact this.1
      · have := hBm.2
        simp only [Bool.and_eq_true, bne_iff_ne, ne_eq, decide_eq_true_eq] at this
        exact this.2
      · intro hex
        exact hacc ((gsnAcc_mem simFn minSim entities pre [] A.id hApre).mpr
          (Or.inr hex))
    · rintro ⟨pre, post, hsp, hBmem, hBne, hsim, hnotbefore⟩
      have hApre : A.id ∉ pre.map SEntity.id := by
        have h1 := hnd
        rw [hsp] at h1
        simp only [List.map_append, List.map_cons] at h1
        have h2 := (List.nodup_append.mp h1).2.2
        intro hmem3
        exact h2 hmem3 (List.mem_cons_self _ _)
      have hacc : A.id ∉ gsnAcc simFn minSim entities pre [] := by
        intro h
        rcases (gsnAcc_mem simFn minSim entities pre [] A.id hApre).mp h with h2 | h2
        · exact absurd h2 (List.not_mem_nil _)
        · exact hnotbefore h2
      have hmem2 : (A, similarMatches simFn minSim entities A) ∈
          gsnAux simFn minSim entities entities [] :=
        (gsnAux_mem simFn minSim entities entities [] A _).mpr
          ⟨pre, post, hsp, hacc, rfl⟩
      have hBg : B ∈ similarMatches simFn minSim entities A :=
        List.mem_filter.mpr ⟨hBmem, by
          simp only [Bool.and_eq_true, bne_iff_ne, ne_eq, decide_eq_true_eq]
          exact ⟨hBne, hsim⟩⟩
      refine ⟨similarMatches simFn minSim entities A, List.mem_filter.mpr ⟨hmem2, ?_⟩, hBg⟩
      cases hg : similarMatches simFn minSim entities A with
      | nil => rw [hg] at hBg; exact absurd hBg (List.not_mem_nil _)
      | cons x xs => simp
  · intro A g hmem
    have := (List.mem_filter.mp hmem).2
    intro h0
    rw [h0] at this
    simp at this

/-- Witness for C7 on `entsW7`: entity 2 (named `x`) lands in the group of
entity 1 (also named `x`) at threshold 90. -/
theorem c7_witness :
    ∃ g, (⟨1, "x", "E21"⟩, g) ∈ get_similar_named simW7 90 entsW7 ∧
      (⟨2, "x", "E21"⟩ : SEntity) ∈ g :=
  ((c7_similar_named simW7 90 entsW7 (by decide)).1 ⟨1, "x", "E21"⟩ ⟨2, "x", "E21"⟩).mpr
    ⟨[], [⟨2, "x", "E21"⟩, ⟨3, "y", "E21"⟩], rfl, by decide, by decide, by decide,
      by rintro ⟨S, gS, hm, -⟩; exact absurd hm (List.not_mem_nil _)⟩
